import Mathlib

/-!
# Text-editor: serializer, deserializer and mention matcher of `src/App.js`

A shallow embedding of the three pieces of logic of `src/App.js`:

* `serialize` (lines 17-57), document tree to HTML string;
* `deserialize` (lines 59-100), parsed DOM to document tree;
* the mention matcher of the `App` component: the candidate filter `chars`
  (lines 124-126), the key handler `onKeyDown` (lines 128-162) and the change
  handler `onChange` (lines 180-205).

JavaScript strings are Lean strings, JavaScript arrays are lists, `undefined`
and `null` are `none`.
-/

namespace TextEditor

/-! ## Data model -/

/-- A node of the document tree. `Text.isText` holds exactly of `text`; the four
marks are the truthiness of the properties `bold`, `underline`, `code`, `italic`.
An element carries its `type` and `character` properties (`none` when the
property is missing) and its `children`. -/
inductive Node where
  | text (text : String) (bold underline code italic : Bool)
  | element (type : Option String) (character : Option String) (children : List Node)

/-- A text node without marks, the object `{text: s}`. -/
def Node.plain (s : String) : Node := .text s false false false false

/-- A node of the parsed HTML document, as far as `deserialize` reads it:
a text node (`nodeType` 3), an element (`nodeType` 1) with its upper-case
`nodeName` and its `childNodes`, or any other node such as a comment
(`nodeType` 8). -/
inductive Dom where
  | text (data : String)
  | comment (data : String)
  | element (nodeName : String) (childNodes : List Dom)

/-- The four results of `deserialize`: `null`, a bare string, a tree node, or a
fragment (an array of tree nodes). -/
inductive Value where
  | null
  | string (s : String)
  | node (n : Node)
  | fragment (nodes : List Node)

/-- The four marks of a text node. -/
inductive Mark where
  | bold
  | italic
  | underline
  | code
  deriving DecidableEq, Repr

/-! ## Serializer (`App.js` 17-57) -/

/-- String coercion of a property inside a template literal: a missing
property prints as `undefined`. -/
def templateString : Option String → String
  | some s => s
  | none => "undefined"

mutual
/-- The function `serialize` of `App.js`, lines 17-57. -/
def serialize : Node → String
  | .text text bold underline code italic =>
    let text := if bold then "<strong>" ++ text ++ "</strong>" else text
    let text := if underline then "<u>" ++ text ++ "</u>" else text
    let text := if code then "<code>" ++ text ++ "</code>" else text
    let text := if italic then "<em>" ++ text ++ "</em>" else text
    text
  | .element type character children =>
    let children := serializeChildren children
    match type with
    | some "block-quote" => "<blockquote><p>" ++ children ++ "</p></blockquote>"
    | some "paragraph" => "<p>" ++ children ++ "</p>"
    | some "heading-one" => "<h1>" ++ children ++ "</h1>"
    | some "heading-two" => "<h2>" ++ children ++ "</h2>"
    | some "numbered-list" => "<ol>" ++ children ++ "</ol>"
    | some "bulleted-list" => "<ul>" ++ children ++ "</ul>"
    | some "list-item" => "<li>" ++ children ++ "</li>"
    | some "mention" =>
      "<span style=\"color: darkblue\">" ++ templateString character ++ "</span>"
    | _ => children
/-- The expression `node.children.map(n => serialize(n)).join('')` of line 34. -/
def serializeChildren : List Node → String
  | [] => ""
  | n :: ns => serialize n ++ serializeChildren ns
end

/-- The wrap of a text in the tag `tag` when `flag` is set, and the text itself
otherwise. -/
def wrapWhen (flag : Bool) (tag text : String) : String :=
  if flag then "<" ++ tag ++ ">" ++ text ++ "</" ++ tag ++ ">" else text

/-! ## Deserializer (`App.js` 59-100) -/

mutual
/-- The DOM property `textContent`: the data of a text or comment node, and for
an element the data of its descendant text nodes in tree order. -/
def Dom.textContent : Dom → String
  | .text data => data
  | .comment data => data
  | .element _ childNodes => Dom.descendantText childNodes
/-- The text of the text nodes below a list of sibling nodes, in tree order. -/
def Dom.descendantText : List Dom → String
  | [] => ""
  | .comment _ :: rest => Dom.descendantText rest
  | .text data :: rest => data ++ Dom.descendantText rest
  | .element name kids :: rest =>
    Dom.textContent (.element name kids) ++ Dom.descendantText rest
end

/-- Modelled from the spec: the children of a node built by the `jsx` factory,
which `App.js` imports from the package `slate-hyperscript` and does not define.
By §3 the children of an element are text or element nodes, and by §4.2 a
string result is a raw text run, a null result produces no tree node and a
fragment wraps a list of children: a string becomes a text node without marks,
`null` is left out, a node is kept and a fragment contributes its nodes, all in
the order of the results. -/
def descendants : List Value → List Node
  | [] => []
  | .null :: rest => descendants rest
  | .string s :: rest => Node.plain s :: descendants rest
  | .node n :: rest => n :: descendants rest
  | .fragment nodes :: rest => nodes ++ descendants rest

/-- Modelled from the spec: `jsx('fragment', {}, children)` of the absent `jsx`
factory, by §4.2 a fragment wrapping the children list. -/
def jsxFragment (children : List Value) : Value :=
  .fragment (descendants children)

/-- Modelled from the spec: `jsx('element', {type, character}, children)` of the
absent `jsx` factory, by §4.2 an element of the given type (and `character`,
for a mention) over the children list. -/
def jsxElement (type : String) (character : Option String) (children : List Value) :
    Value :=
  .node (.element (some type) character (descendants children))

/-- The text node with payload `s` and exactly the mark `m` set. -/
def Mark.node (m : Mark) (s : String) : Node :=
  .text s (m = .bold) (m = .underline) (m = .code) (m = .italic)

/-- The payload that the first child result gives to a text node: a string gives
itself and a text node its text; no first result, or one of another kind, gives
the empty payload, which §4.2 leaves open. -/
def firstText : List Value → String
  | .string s :: _ => s
  | .node (.text s _ _ _ _) :: _ => s
  | _ => ""

/-- Modelled from the spec: `jsx('text', {mark: true}, children)` of the absent
`jsx` factory, by §4.2 a single text node with exactly that one mark set, built
from the first child result. -/
def jsxText (m : Mark) (children : List Value) : Value :=
  .node (m.node (firstText children))

/-- String coercion of one array entry, as `Array.prototype.join` does it:
`null` gives the empty string, a string itself, an object `[object Object]` and
a nested array its own comma-joined coercion. -/
def Value.joinItem : Value → String
  | .null => ""
  | .string s => s
  | .node _ => "[object Object]"
  | .fragment nodes => ",".intercalate (nodes.map fun _ => "[object Object]")

/-- The method `toString` of an array of results, `children.toString()` of
line 86: the entries coerced to strings and joined with commas. -/
def arrayToString (children : List Value) : String :=
  ",".intercalate (children.map Value.joinItem)

mutual
/-- The function `deserialize` of `App.js`, lines 59-100. A text node
(`nodeType === 3`) gives its `textContent`, a node that is not an element
(`nodeType !== 1`) gives `null`, and an element is dispatched on its
`nodeName` after its children are deserialized. -/
def deserialize : Dom → Value
  | .text data => .string (Dom.textContent (.text data))
  | .comment _ => .null
  | .element nodeName childNodes =>
    let children := deserializeChildren childNodes
    match nodeName with
    | "BODY" => jsxFragment children
    | "BR" => .string "\n"
    | "BLOCKQUOTE" => jsxElement "quote" none children
    | "P" => jsxElement "paragraph" none children
    | "STRONG" => jsxText .bold children
    | "EM" => jsxText .italic children
    | "U" => jsxText .underline children
    | "CODE" => jsxText .code children
    | "SPAN" => jsxElement "mention" (some (arrayToString children)) [.node (Node.plain "")]
    | "H1" => jsxElement "heading-one" none children
    | "H2" => jsxElement "heading-two" none children
    | "LI" => jsxElement "list-item" none children
    | "OL" => jsxElement "numbered-list" none children
    | "UL" => jsxElement "bulleted-list" none children
    | _ => .string (Dom.textContent (.element nodeName childNodes))
/-- The expression `Array.from(el.childNodes).map(deserialize)` of line 66. -/
def deserializeChildren : List Dom → List Value
  | [] => []
  | d :: ds => deserialize d :: deserializeChildren ds
end

/-! ## Mention matcher (`App.js` 111-205, 288-292) -/

/-- A point of the editor: a path into the tree and an offset into a text. -/
structure Point where
  path : List Nat
  offset : Nat
  deriving DecidableEq, Repr

/-- A range of the editor, from an anchor point to a focus point. -/
structure Range where
  anchor : Point
  focus : Point
  deriving DecidableEq, Repr

/-- A range is collapsed when its two points are equal. -/
def Range.isCollapsed (r : Range) : Bool := r.anchor = r.focus

/-- The candidate names, line 439. -/
def CHARACTERS : List String := ["Ayushi", "Sarang"]

/-- The method `toLowerCase` on the letters `A` to `Z`; every other character
is kept. The names of `CHARACTERS` and the words that the trigger pattern
captures consist of such characters only. -/
def toLowerCase (s : String) : String := ⟨s.data.map Char.toLower⟩

/-- The method `startsWith`: `p` is an initial segment of `s`. -/
def startsWith (s p : String) : Bool := p.data.isPrefixOf s.data

/-- The filtered candidate list of lines 124-126,
`CHARACTERS.filter(c => c.toLowerCase().startsWith(search.toLowerCase())).slice(0, 10)`,
with the case mapping and the candidate list as parameters; the component
uses `toLowerCase` and `CHARACTERS`. -/
def chars (lower : String → String) (candidates : List String) (search : String) :
    List String :=
  (candidates.filter fun c => startsWith (lower c) (lower search)).take 10

/-- The hook state of the matcher: `target`, `index` and `search`
(lines 114-116). The matcher is active when `target` is set. -/
structure MatcherState where
  target : Option Range
  index : Int
  search : String
  deriving DecidableEq, Repr

/-- The initial hook state: no target, index 0, empty search. -/
def MatcherState.initial : MatcherState := ⟨none, 0, ""⟩

/-- The class `\w` of a regular expression without flags. -/
def isWordChar (c : Char) : Bool := c.isAlphanum || c = '_'

/-- The class `\s` of a regular expression. -/
def isWhiteSpace (c : Char) : Bool :=
  c.toNat ∈ [0x09, 0x0A, 0x0B, 0x0C, 0x0D, 0x20, 0xA0, 0x1680, 0x2028, 0x2029, 0x202F,
    0x205F, 0x3000, 0xFEFF] || (0x2000 ≤ c.toNat && c.toNat ≤ 0x200A)

/-- The match of line 190 against an opening brace, one or more word
characters and the end of the text; the result is the captured word. -/
def beforeMatch (beforeText : String) : Option String :=
  match beforeText.data with
  | '\x7b' :: word => if word ≠ [] ∧ word.all isWordChar then some ⟨word⟩ else none
  | _ => none

/-- The match of line 194, `afterText.match(/^(\s|$)/)`: the text is empty or
starts with a white-space character. -/
def afterMatch (afterText : String) : Bool :=
  match afterText.data with
  | [] => true
  | c :: _ => isWhiteSpace c

/-- What the change handler reads from the editor: the selection; the range
from the point before the word before the cursor up to the cursor together
with its text (`beforeRange` and `beforeText`, both missing when
`Editor.before` finds no point); and the text after the cursor. -/
structure EditorView where
  selection : Option Range
  before : Option (Range × String)
  afterText : String

/-- The change handler of lines 180-205, on the hook state. -/
def onChange (st : MatcherState) (view : EditorView) : MatcherState :=
  match view.selection with
  | some selection =>
    if selection.isCollapsed then
      match view.before with
      | some (beforeRange, beforeText) =>
        match beforeMatch beforeText with
        | some word =>
          if afterMatch view.afterText then ⟨some beforeRange, 0, word⟩
          else { st with target := none }
        | none => { st with target := none }
      | none => { st with target := none }
    else { st with target := none }
  | none => { st with target := none }

/-- The conditions under which the change handler activates the matcher with
the range `r` and the word `w`: the selection is a collapsed cursor; the text
before the cursor is an opening brace followed by the word `w` and nothing
else; `w` is not empty and consists of letters `a` to `z` and `A` to `Z`, digits
and underscores; and the text after the cursor is empty or starts with a
white-space character: tab, line feed, vertical tab, form feed, carriage
return, space, no-break space, U+1680, U+2000 to U+200A, the line and
paragraph separators, U+202F, U+205F, U+3000 or U+FEFF. -/
def Triggers (view : EditorView) (r : Range) (w : String) : Prop :=
  (∃ sel, view.selection = some sel ∧ sel.anchor = sel.focus)
    ∧ view.before = some (r, "\x7b" ++ w)
    ∧ w ≠ ""
    ∧ (∀ c ∈ w.data,
        ('a' ≤ c ∧ c ≤ 'z') ∨ ('A' ≤ c ∧ c ≤ 'Z') ∨ ('0' ≤ c ∧ c ≤ '9') ∨ c = '_')
    ∧ (view.afterText = "" ∨ ∃ c rest, view.afterText.data = c :: rest ∧
        c.toNat ∈ [9, 10, 11, 12, 13, 32, 160, 5760, 8192, 8193, 8194, 8195, 8196, 8197,
          8198, 8199, 8200, 8201, 8202, 8232, 8233, 8239, 8287, 12288, 65279])

/-- The element built by `insertMention`, lines 288-292. -/
def insertMention (character : String) : Node :=
  .element (some "mention") (some character) [Node.plain ""]

/-- Array access `chars[index]`: `undefined` outside the array. -/
def arrayGet (chars : List String) (index : Int) : Option String :=
  if 0 ≤ index then chars[index.toNat]? else none

/-- What a key press does: the new hook state, the range given to
`Transforms.select`, the node given to `Transforms.insertNodes`, and whether
`preventDefault` was called. -/
structure KeyOutcome where
  state : MatcherState
  selected : Option Range
  inserted : Option Node
  defaultPrevented : Bool

/-- The key handler of lines 128-162, for the filtered list `chars` of the
current render. -/
def onKeyDown (chars : List String) (st : MatcherState) (key : String) : KeyOutcome :=
  match st.target with
  | some target =>
    match key with
    | "ArrowDown" =>
      let prevIndex := if st.index ≥ (chars.length : Int) - 1 then 0 else st.index + 1
      ⟨{ st with index := prevIndex }, none, none, true⟩
    | "ArrowUp" =>
      let nextIndex := if st.index ≤ 0 then (chars.length : Int) - 1 else st.index - 1
      ⟨{ st with index := nextIndex }, none, none, true⟩
    | "Tab" | "Enter" =>
      ⟨{ st with target := none }, some target,
        some (insertMention ("\x7b\x7b" ++ templateString (arrayGet chars st.index) ++ "\x7d\x7d")),
        true⟩
    | "Escape" => ⟨{ st with target := none }, none, none, true⟩
    | _ => ⟨st, none, none, false⟩
  | none => ⟨st, none, none, false⟩

/-! ## Well-formed fragments -/

/-- The state of a scan through an HTML string: the names of the tags that are
open, innermost first; inside a tag, the characters read since its `<`, latest
first; and the text content read so far, the characters outside the tags. -/
structure Scan where
  stack : List (List Char)
  tag : Option (List Char)
  text : List Char
  deriving DecidableEq, Repr

/-- The end of a tag at `>`. A closing tag `</name>` must close the innermost
open tag; an opening tag, whose name runs up to the first blank and is a
non-empty word of letters and digits, is pushed. -/
def Scan.closeTag (stack : List (List Char)) (content text : List Char) : Option Scan :=
  match content with
  | '/' :: name =>
    match stack with
    | top :: rest => if top = name then some ⟨rest, none, text⟩ else none
    | [] => none
  | _ =>
    let name := content.takeWhile fun c => c ≠ ' '
    if name ≠ [] ∧ name.all Char.isAlphanum then some ⟨name :: stack, none, text⟩ else none

/-- One character of the scan; `none` is a failed scan. Outside a tag `<`
opens a tag and any other character is text content; inside a tag `>` ends it,
a second `<` fails and any other character belongs to the tag. -/
def Scan.step : Option Scan → Char → Option Scan
  | none, _ => none
  | some ⟨stack, none, text⟩, c =>
    if c = '<' then some ⟨stack, some [], text⟩ else some ⟨stack, none, text ++ [c]⟩
  | some ⟨stack, some acc, text⟩, c =>
    if c = '>' then Scan.closeTag stack acc.reverse text
    else if c = '<' then none
    else some ⟨stack, some (c :: acc), text⟩

/-- The text content of a well-formed HTML fragment, in the words of §4.1: the
scan starts and ends outside a tag with no tag open, so every tag that is
opened is closed in properly nested order, and the result is the text between
the tags. A string that is not well formed has no text content. -/
def fragmentText (html : String) : Option String :=
  match html.data.foldl Scan.step (some ⟨[], none, []⟩) with
  | some ⟨[], none, text⟩ => some ⟨text⟩
  | _ => none

/-- A well-formed HTML fragment: every tag that is opened is closed, in
properly nested order. -/
def wellFormed (html : String) : Bool := (fragmentText html).isSome

/-- The characters `l` read outside a tag leave the open tags as they were and
add exactly `t` to the text content. -/
def Reads (l t : List Char) : Prop :=
  ∀ stack text, l.foldl Scan.step (some ⟨stack, none, text⟩) = some ⟨stack, none, text ++ t⟩

/-- A text without `<`, which therefore opens no tag. -/
def plainText (s : String) : Bool := s.data.all fun c => c ≠ '<'

mutual
/-- Every text payload of the node and the `character` of every mention in it
is a text without `<`. -/
def plainNode : Node → Bool
  | .text text _ _ _ _ => plainText text
  | .element type character children =>
    (type ≠ some "mention" || plainText (templateString character)) && plainNodes children
/-- The nodes of a list all satisfy `plainNode`. -/
def plainNodes : List Node → Bool
  | [] => true
  | n :: ns => plainNode n && plainNodes ns
end

mutual
/-- The payloads that a node brings into its serialization, in document order:
the payload of a text node, the `character` of a mention, and for any other
element the payloads of its children. -/
def payloadText : Node → String
  | .text text _ _ _ _ => text
  | .element type character children =>
    if type = some "mention" then templateString character else payloadTexts children
/-- The payloads of a list of nodes, one after the other. -/
def payloadTexts : List Node → String
  | [] => ""
  | n :: ns => payloadText n ++ payloadTexts ns
end

/-! ## Serializer: theorems -/

theorem foldl_append_string (l : List String) (acc : String) :
    l.foldl (· ++ ·) acc = acc ++ l.foldl (· ++ ·) "" := by
  induction l generalizing acc with
  | nil => simp
  | cons a l ih =>
    simp only [List.foldl_cons]
    rw [ih (acc ++ a), ih ("" ++ a)]
    simp [String.append_assoc]

theorem serializeChildren_eq_join (children : List Node) :
    serializeChildren children = String.join (children.map serialize) := by
  induction children with
  | nil => rfl
  | cons n ns ih =>
    rw [serializeChildren, ih]
    simp only [String.join, List.map_cons, List.foldl_cons]
    rw [foldl_append_string _ ("" ++ serialize n)]
    simp

theorem deserializeChildren_eq_map (childNodes : List Dom) :
    deserializeChildren childNodes = childNodes.map deserialize := by
  induction childNodes with
  | nil => rfl
  | cons d ds ih => simp [deserializeChildren, ih]

/-- C1: a text node serializes to its payload wrapped by the tags of its set
marks, applied in the order bold (`strong`), underline (`u`), code (`code`),
italic (`em`), each later wrap around the earlier ones; a bold and italic node
with text `text` gives `<em><strong>text</strong></em>` and a node without
marks gives its payload unchanged. -/
theorem serialize_text_wraps (t : String) (bold underline code italic : Bool) :
    serialize (.text t bold underline code italic) =
        wrapWhen italic "em" (wrapWhen code "code"
          (wrapWhen underline "u" (wrapWhen bold "strong" t)))
      ∧ serialize (.text "text" true false false true) = "<em><strong>text</strong></em>"
      ∧ serialize (.text t false false false false) = t := by
  refine ⟨?_, by decide, rfl⟩
  cases bold <;> cases underline <;> cases code <;> cases italic <;>
    simp [serialize, wrapWhen, String.ext_iff]

/-- C2: an element serializes to the concatenation `c` of its serialized
children, in order and without separator, wrapped by its type: `block-quote`
in `<blockquote><p>c</p></blockquote>`, `paragraph` in `<p>`, `heading-one` in
`<h1>`, `heading-two` in `<h2>`, `numbered-list` in `<ol>`, `bulleted-list` in
`<ul>`, `list-item` in `<li>`; a mention gives the span around its `character`
whatever its children; any other or missing type gives `c` alone. -/
theorem serialize_element_wraps (type character : Option String) (ch : String)
    (children : List Node) :
    serializeChildren children = String.join (children.map serialize)
      ∧ serialize (.element (some "block-quote") character children) =
          "<blockquote><p>" ++ String.join (children.map serialize) ++ "</p></blockquote>"
      ∧ serialize (.element (some "paragraph") character children) =
          "<p>" ++ String.join (children.map serialize) ++ "</p>"
      ∧ serialize (.element (some "heading-one") character children) =
          "<h1>" ++ String.join (children.map serialize) ++ "</h1>"
      ∧ serialize (.element (some "heading-two") character children) =
          "<h2>" ++ String.join (children.map serialize) ++ "</h2>"
      ∧ serialize (.element (some "numbered-list") character children) =
          "<ol>" ++ String.join (children.map serialize) ++ "</ol>"
      ∧ serialize (.element (some "bulleted-list") character children) =
          "<ul>" ++ String.join (children.map serialize) ++ "</ul>"
      ∧ serialize (.element (some "list-item") character children) =
          "<li>" ++ String.join (children.map serialize) ++ "</li>"
      ∧ serialize (.element (some "mention") (some ch) children) =
          "<span style=\"color: darkblue\">" ++ ch ++ "</span>"
      ∧ (type ∉ [some "block-quote", some "paragraph", some "heading-one",
            some "heading-two", some "numbered-list", some "bulleted-list",
            some "list-item", some "mention"] →
          serialize (.element type character children) =
            String.join (children.map serialize))
      ∧ serialize (.element (some "paragraph") none [Node.plain "hi"]) = "<p>hi</p>"
      ∧ serialize (.element (some "bulleted-list") none
            [.element (some "list-item") none [Node.plain "item"]]) =
          "<ul><li>item</li></ul>" := by
  have hj := serializeChildren_eq_join children
  refine ⟨hj, ?_, ?_, ?_, ?_, ?_, ?_, ?_, rfl, ?_, by decide, by decide⟩
  · rw [← hj]; rfl
  · rw [← hj]; rfl
  · rw [← hj]; rfl
  · rw [← hj]; rfl
  · rw [← hj]; rfl
  · rw [← hj]; rfl
  · rw [← hj]; rfl
  · intro h
    simp only [List.mem_cons, List.mem_singleton, not_or, List.not_mem_nil, or_false] at h
    obtain ⟨h1, h2, h3, h4, h5, h6, h7, h8⟩ := h
    rw [← hj]
    cases type with
    | none => rfl
    | some s =>
      simp only [Option.some.injEq] at h1 h2 h3 h4 h5 h6 h7 h8
      simp only [serialize]
      split <;> simp_all

/-- Witness of C2: an element without type serializes to the concatenation of
its serialized children. -/
theorem serialize_element_wraps_witness :
    serialize (.element none none [Node.plain "a", Node.plain "b"]) =
      String.join ([Node.plain "a", Node.plain "b"].map serialize) :=
  (serialize_element_wraps none none "" [Node.plain "a", Node.plain "b"]).2.2.2.2.2.2.2.2.2.1
    (by decide)

theorem reads_nil : Reads [] [] := fun _ _ => by simp

theorem reads_append {a b s t : List Char} (ha : Reads a s) (hb : Reads b t) :
    Reads (a ++ b) (s ++ t) := by
  intro stack text
  rw [List.foldl_append, ha stack text, hb stack (text ++ s), List.append_assoc]

theorem reads_of_plain (l : List Char) (h : l.all (fun c => c ≠ '<') = true) :
    Reads l l := by
  induction l with
  | nil => exact reads_nil
  | cons c l ih =>
    simp only [List.all_cons, Bool.and_eq_true, decide_eq_true_eq] at h
    intro stack text
    simp only [List.foldl_cons, Scan.step, if_neg h.1]
    rw [ih h.2 stack (text ++ [c])]
    simp

theorem reads_tag (opening closing : String) (name : List Char) (body : String)
    (t : List Char)
    (ho : ∀ stack text, opening.data.foldl Scan.step (some ⟨stack, none, text⟩) =
      some ⟨name :: stack, none, text⟩)
    (hc : ∀ stack text, closing.data.foldl Scan.step (some ⟨name :: stack, none, text⟩) =
      some ⟨stack, none, text⟩)
    (hb : Reads body.data t) : Reads (opening ++ body ++ closing).data t := by
  intro stack text
  simp only [String.data_append]
  rw [List.foldl_append, List.foldl_append, ho stack text, hb (name :: stack) text,
    hc stack (text ++ t)]

theorem reads_text (t : String) (b u c i : Bool) (p : List Char) (h : Reads t.data p) :
    Reads (serialize (.text t b u c i)).data p := by
  simp only [serialize]
  have h1 : Reads (if b = true then "<strong>" ++ t ++ "</strong>" else t).data p := by
    split
    · exact reads_tag _ _ "strong".data _ _ (fun _ _ => rfl) (fun _ _ => rfl) h
    · exact h
  have h2 := fun (s : String) (hs : Reads s.data p) =>
    show Reads (if u = true then "<u>" ++ s ++ "</u>" else s).data p by
      split
      · exact reads_tag _ _ "u".data _ _ (fun _ _ => rfl) (fun _ _ => rfl) hs
      · exact hs
  have h3 := fun (s : String) (hs : Reads s.data p) =>
    show Reads (if c = true then "<code>" ++ s ++ "</code>" else s).data p by
      split
      · exact reads_tag _ _ "code".data _ _ (fun _ _ => rfl) (fun _ _ => rfl) hs
      · exact hs
  have h4 := fun (s : String) (hs : Reads s.data p) =>
    show Reads (if i = true then "<em>" ++ s ++ "</em>" else s).data p by
      split
      · exact reads_tag _ _ "em".data _ _ (fun _ _ => rfl) (fun _ _ => rfl) hs
      · exact hs
  exact h4 _ (h3 _ (h2 _ h1))

theorem reads_mention (character : Option String) (children : List Node)
    (hm : plainText (templateString character) = true) :
    Reads (serialize (.element (some "mention") character children)).data
      (payloadText (.element (some "mention") character children)).data := by
  simp only [serialize, payloadText, if_true]
  exact reads_tag _ _ "span".data _ _ (fun _ _ => rfl) (fun _ _ => rfl)
    (reads_of_plain _ hm)

theorem reads_element (type character : Option String) (children : List Node)
    (hm : type ≠ some "mention")
    (hc : Reads (serializeChildren children).data (payloadTexts children).data) :
    Reads (serialize (.element type character children)).data
      (payloadText (.element type character children)).data := by
  simp only [serialize, payloadText, if_neg hm]
  split
  · have hp := reads_tag "<p>" "</p>" "p".data _ _ (fun _ _ => rfl) (fun _ _ => rfl) hc
    have hq := reads_tag "<blockquote>" "</blockquote>" "blockquote".data _ _
      (fun _ _ => rfl) (fun _ _ => rfl) hp
    simpa [String.data_append, List.append_assoc] using hq
  · exact reads_tag _ _ "p".data _ _ (fun _ _ => rfl) (fun _ _ => rfl) hc
  · exact reads_tag _ _ "h1".data _ _ (fun _ _ => rfl) (fun _ _ => rfl) hc
  · exact reads_tag _ _ "h2".data _ _ (fun _ _ => rfl) (fun _ _ => rfl) hc
  · exact reads_tag _ _ "ol".data _ _ (fun _ _ => rfl) (fun _ _ => rfl) hc
  · exact reads_tag _ _ "ul".data _ _ (fun _ _ => rfl) (fun _ _ => rfl) hc
  · exact reads_tag _ _ "li".data _ _ (fun _ _ => rfl) (fun _ _ => rfl) hc
  · exact absurd rfl hm
  · exact hc

mutual
theorem reads_serialize :
    ∀ n : Node, plainNode n = true → Reads (serialize n).data (payloadText n).data
  | .text t b u c i, h =>
    reads_text t b u c i _ (reads_of_plain _ (by simpa [plainNode, plainText] using h))
  | .element type character children, h => by
    simp only [plainNode, Bool.and_eq_true, Bool.or_eq_true, decide_eq_true_eq] at h
    have hc := reads_serializeChildren children h.2
    by_cases hm : type = some "mention"
    · subst hm
      rcases h.1 with h1 | h1
      · exact absurd rfl h1
      · exact reads_mention character children h1
    · exact reads_element type character children hm hc
theorem reads_serializeChildren :
    ∀ ns : List Node, plainNodes ns = true →
      Reads (serializeChildren ns).data (payloadTexts ns).data
  | [], _ => reads_nil
  | n :: ns, h => by
    simp only [plainNodes, Bool.and_eq_true] at h
    simp only [serializeChildren, payloadTexts, String.data_append]
    exact reads_append (reads_serialize n h.1) (reads_serializeChildren ns h.2)
end

/-- C6, amended: for every node whose text payloads and mention characters
contain no `<`, `serialize` returns a well-formed fragment: every tag opened in
the output is closed, in properly nested order, and the payloads appear only as
text content between the tags, the text content of the output being exactly the
payloads of the node in document order. -/
theorem serialize_wellFormed (n : Node) (h : plainNode n = true) :
    wellFormed (serialize n) = true
      ∧ fragmentText (serialize n) = some (payloadText n) := by
  have hr := reads_serialize n h [] []
  simp only [List.nil_append] at hr
  simp [wellFormed, fragmentText, hr]

/-- Witness of C6, amended: a paragraph with a bold and italic text and a
mention serializes to a well-formed fragment whose text content is the text
followed by the character of the mention. -/
theorem serialize_wellFormed_witness :
    plainNode (.element (some "paragraph") none
        [.text "a > b" true false false true,
          .element (some "mention") (some "\x7b\x7bAyushi\x7d\x7d") [Node.plain ""]]) = true
      ∧ serialize (.element (some "paragraph") none
        [.text "a > b" true false false true,
          .element (some "mention") (some "\x7b\x7bAyushi\x7d\x7d") [Node.plain ""]]) =
        "<p><em><strong>a > b</strong></em><span style=\"color: darkblue\">\x7b\x7bAyushi\x7d\x7d</span></p>"
      ∧ payloadText (.element (some "paragraph") none
        [.text "a > b" true false false true,
          .element (some "mention") (some "\x7b\x7bAyushi\x7d\x7d") [Node.plain ""]]) =
        "a > b\x7b\x7bAyushi\x7d\x7d"
      ∧ wellFormed (serialize (.element (some "paragraph") none
        [.text "a > b" true false false true,
          .element (some "mention") (some "\x7b\x7bAyushi\x7d\x7d") [Node.plain ""]])) = true
      ∧ fragmentText (serialize (.element (some "paragraph") none
        [.text "a > b" true false false true,
          .element (some "mention") (some "\x7b\x7bAyushi\x7d\x7d") [Node.plain ""]])) =
        some (payloadText (.element (some "paragraph") none
          [.text "a > b" true false false true,
            .element (some "mention") (some "\x7b\x7bAyushi\x7d\x7d") [Node.plain ""]])) :=
  ⟨by decide, by decide, by decide, serialize_wellFormed _ (by decide)⟩

/-- C6 as stated fails: the text node with payload `<p>` serializes to `<p>`,
which opens a tag that is never closed; the payload `</p>` in a paragraph
closes the paragraph early; and the payload `<b></b>` serializes to markup, so
that it is no text content of the output. -/
theorem serialize_markup_payload_not_wellFormed :
    serialize (Node.plain "<p>") = "<p>"
      ∧ wellFormed (serialize (Node.plain "<p>")) = false
      ∧ wellFormed (serialize (.element (some "paragraph") none [Node.plain "</p>"])) = false
      ∧ fragmentText (serialize (Node.plain "<b></b>")) = some ""
      ∧ fragmentText "<p title=\"x\">y</p>" = some "y"
      ∧ wellFormed "<p><b>x</p></b>" = false
      ∧ wellFormed "<p>x" = false
      ∧ wellFormed "x</p>" = false := by
  refine ⟨rfl, by decide, by decide, by decide, by decide, by decide, by decide, by decide⟩

/-! ## Deserializer: theorems -/

/-- C3: a text node with exactly one mark and payload `t` serializes to `t`
inside the tag of the mark, and the element `STRONG`, `EM`, `U` or `CODE` whose
only child is the text `t` deserializes to that same text node. -/
theorem single_mark_round_trip (t : String) :
    (serialize (.text t true false false false) = "<strong>" ++ t ++ "</strong>"
        ∧ deserialize (.element "STRONG" [.text t]) = .node (.text t true false false false))
      ∧ (serialize (.text t false false false true) = "<em>" ++ t ++ "</em>"
        ∧ deserialize (.element "EM" [.text t]) = .node (.text t false false false true))
      ∧ (serialize (.text t false true false false) = "<u>" ++ t ++ "</u>"
        ∧ deserialize (.element "U" [.text t]) = .node (.text t false true false false))
      ∧ (serialize (.text t false false true false) = "<code>" ++ t ++ "</code>"
        ∧ deserialize (.element "CODE" [.text t]) = .node (.text t false false true false)) :=
  ⟨⟨rfl, rfl⟩, ⟨rfl, rfl⟩, ⟨rfl, rfl⟩, ⟨rfl, rfl⟩⟩

theorem descendants_nodes (nodes : List Node) :
    descendants (nodes.map Value.node) = nodes := by
  induction nodes with
  | nil => rfl
  | cons n ns ih => simp [descendants, ih]

/-- C4: a `BLOCKQUOTE` element deserializes to an element of type `quote`, not
`block-quote`, over the deserialized children; an element of type `quote`
serializes to its children without a wrapper; so for a block-quote element `e`,
whose serialization is a `blockquote` around a `p`, the element read back from
a `BLOCKQUOTE` that starts with a `P` serializes to something else than `e`. -/
theorem blockquote_no_round_trip (character : Option String) (children : List Node)
    (childNodes inner rest : List Dom) :
    deserialize (.element "BLOCKQUOTE" childNodes) =
        .node (.element (some "quote") none (descendants (childNodes.map deserialize)))
      ∧ serialize (.element (some "quote") character children) =
          String.join (children.map serialize)
      ∧ serialize (.element (some "block-quote") character children) =
          "<blockquote><p>" ++ String.join (children.map serialize) ++ "</p></blockquote>"
      ∧ deserialize (.element "BLOCKQUOTE" (.element "P" inner :: rest)) =
          .node (.element (some "quote") none
            (.element (some "paragraph") none (descendants (inner.map deserialize)) ::
              descendants (rest.map deserialize)))
      ∧ serialize (.element (some "quote") none
            (.element (some "paragraph") none (descendants (inner.map deserialize)) ::
              descendants (rest.map deserialize))) =
          "<p>" ++ String.join ((descendants (inner.map deserialize)).map serialize) ++ "</p>"
            ++ String.join ((descendants (rest.map deserialize)).map serialize)
      ∧ serialize (.element (some "quote") none
            (.element (some "paragraph") none (descendants (inner.map deserialize)) ::
              descendants (rest.map deserialize))) ≠
          serialize (.element (some "block-quote") character children) := by
  refine ⟨?_, ?_, ?_, ?_, ?_, ?_⟩
  · rw [← deserializeChildren_eq_map]; rfl
  · rw [← serializeChildren_eq_join]; rfl
  · rw [← serializeChildren_eq_join]; rfl
  · rw [← deserializeChildren_eq_map, ← deserializeChildren_eq_map]; rfl
  · rw [← serializeChildren_eq_join, ← serializeChildren_eq_join]; rfl
  · intro h
    have hd := congrArg String.data h
    simp [serialize, serializeChildren] at hd

theorem descendants_eq_flatMap (f : Value → List Node) (h0 : f .null = [])
    (h1 : ∀ s, f (.string s) = [Node.text s false false false false])
    (h2 : ∀ n, f (.node n) = [n]) (h3 : ∀ ns, f (.fragment ns) = ns) (vs : List Value) :
    descendants vs = vs.flatMap f := by
  induction vs with
  | nil => rfl
  | cons v vs ih =>
    cases v <;> simp [descendants, List.flatMap_cons, ih, h0, h1, h2, h3, Node.plain]

theorem arrayToString_eq_intercalate (g : Value → String) (h0 : g .null = "")
    (h1 : ∀ s, g (.string s) = s) (h2 : ∀ n, g (.node n) = "[object Object]")
    (h3 : ∀ ns, g (.fragment ns) = ",".intercalate (ns.map fun _ => "[object Object]"))
    (vs : List Value) : arrayToString vs = ",".intercalate (vs.map g) := by
  have hg : Value.joinItem = g := by
    funext v
    cases v <;> simp [Value.joinItem, h0, h1, h2, h3]
  rw [arrayToString, hg]

/-- C5: an element `P`, `H1`, `H2`, `LI`, `OL` or `UL` deserializes to an
element of type `paragraph`, `heading-one`, `heading-two`, `list-item`,
`numbered-list` or `bulleted-list` whose children are the results of its DOM
children in DOM order, a string result as a text node without marks, a node
result as itself, the nodes of a fragment in its place and a null result as no
child; a `SPAN` deserializes to a mention whose `character` is the comma-joined
string coercion of the results (a string as itself, `null` as the empty
string, a node as `[object Object]`), which for a single text child is that
text, and whose children are one empty text node; `<p>hello</p>` gives a
paragraph with the one text child `hello`. -/
theorem deserialize_elements (childNodes : List Dom) (c : String) :
    let children : List Node := (childNodes.map deserialize).flatMap fun v =>
      match v with
      | .null => []
      | .string s => [Node.text s false false false false]
      | .node n => [n]
      | .fragment nodes => nodes
    let character : String := ",".intercalate ((childNodes.map deserialize).map fun v =>
      match v with
      | .null => ""
      | .string s => s
      | .node _ => "[object Object]"
      | .fragment nodes => ",".intercalate (nodes.map fun _ => "[object Object]"))
    deserialize (.element "P" childNodes) = .node (.element (some "paragraph") none children)
      ∧ deserialize (.element "H1" childNodes) =
        .node (.element (some "heading-one") none children)
      ∧ deserialize (.element "H2" childNodes) =
        .node (.element (some "heading-two") none children)
      ∧ deserialize (.element "LI" childNodes) =
        .node (.element (some "list-item") none children)
      ∧ deserialize (.element "OL" childNodes) =
        .node (.element (some "numbered-list") none children)
      ∧ deserialize (.element "UL" childNodes) =
        .node (.element (some "bulleted-list") none children)
      ∧ deserialize (.element "SPAN" childNodes) =
        .node (.element (some "mention") (some character)
          [.text "" false false false false])
      ∧ deserialize (.element "SPAN" [.text c]) =
        .node (.element (some "mention") (some c) [.text "" false false false false])
      ∧ deserialize (.element "P" [.text "hello"]) =
        .node (.element (some "paragraph") none [.text "hello" false false false false])
      ∧ deserialize (.element "LI" [.text "a", .element "STRONG" [.text "b"], .comment "x",
          .text "c", .element "UL" [.element "LI" [.text "d"]], .element "BR" []]) =
        .node (.element (some "list-item") none
          [.text "a" false false false false, .text "b" true false false false,
            .text "c" false false false false,
            .element (some "bulleted-list") none
              [.element (some "list-item") none [.text "d" false false false false]],
            .text "\n" false false false false])
      ∧ deserialize (.element "SPAN" [.text "a", .element "STRONG" [.text "b"],
          .comment "x", .element "BR" [], .text "c"]) =
        .node (.element (some "mention") (some "a,[object Object],,\n,c")
          [.text "" false false false false])
      ∧ deserialize (.element "SPAN" [.element "BODY" [.element "P" [], .element "P" []]]) =
        .node (.element (some "mention") (some "[object Object],[object Object]")
          [.text "" false false false false]) := by
  intro children character
  have hm := deserializeChildren_eq_map childNodes
  have hd : descendants (childNodes.map deserialize) = children :=
    descendants_eq_flatMap _ rfl (fun _ => rfl) (fun _ => rfl) (fun _ => rfl) _
  have ha : arrayToString (childNodes.map deserialize) = character :=
    arrayToString_eq_intercalate _ rfl (fun _ => rfl) (fun _ => rfl) (fun _ => rfl) _
  refine ⟨?_, ?_, ?_, ?_, ?_, ?_, ?_, rfl, rfl, rfl, rfl, rfl⟩
  · rw [← hd, ← hm]; rfl
  · rw [← hd, ← hm]; rfl
  · rw [← hd, ← hm]; rfl
  · rw [← hd, ← hm]; rfl
  · rw [← hd, ← hm]; rfl
  · rw [← hd, ← hm]; rfl
  · rw [← ha, ← hm]; rfl

/-! ## Mention matcher: theorems -/

theorem startsWith_iff (s p : String) : startsWith s p = true ↔ ∃ r : String, s = p ++ r := by
  unfold startsWith
  rw [List.isPrefixOf_iff_prefix]
  constructor
  · rintro ⟨t, ht⟩
    exact ⟨⟨t⟩, String.ext (by simp [ht])⟩
  · rintro ⟨r, hr⟩
    exact ⟨r.data, by simp [hr]⟩

theorem beforeMatch_eq_some (s w : String) :
    beforeMatch s = some w ↔
      s = "\x7b" ++ w ∧ w ≠ "" ∧ ∀ c ∈ w.data, isWordChar c = true := by
  unfold beforeMatch
  split
  · next word hs =>
    have hs' : s = "\x7b" ++ (⟨word⟩ : String) := String.ext (by simp [hs])
    by_cases hw : word ≠ [] ∧ word.all isWordChar = true
    · rw [if_pos hw]
      constructor
      · intro h
        have h' : (⟨word⟩ : String) = w := by simpa using h
        subst h'
        refine ⟨hs', ?_, ?_⟩
        · intro h0
          exact hw.1 (by simpa using congrArg String.data h0)
        · simpa [List.all_eq_true] using hw.2
      · rintro ⟨h1, -, -⟩
        have : word = w.data := by
          have := congrArg String.data h1
          simpa [hs] using this
        simp [this]
    · rw [if_neg hw]
      constructor
      · intro h; cases h
      · rintro ⟨h1, h2, h3⟩
        exfalso
        apply hw
        have : word = w.data := by
          have := congrArg String.data h1
          simpa [hs] using this
        subst this
        refine ⟨?_, by simpa [List.all_eq_true] using h3⟩
        intro h0
        exact h2 (String.ext (by simpa using h0))
  · next hne =>
    constructor
    · intro h; cases h
    · rintro ⟨h1, -, -⟩
      exfalso
      have := congrArg String.data h1
      exact hne w.data (by simpa using this)

theorem afterMatch_iff (s : String) :
    afterMatch s = true ↔ s = "" ∨ ∃ c rest, s.data = c :: rest ∧ isWhiteSpace c = true := by
  unfold afterMatch
  split
  · next h => simp [String.ext_iff, h]
  · next c rest h => simp [String.ext_iff, h]

/-- C7: the filtered list is the first ten, in the order of the candidate list,
of the candidates whose lower-case form starts with the lower-case search
string; it has at most ten entries, each a candidate that matches; with the
candidates `Ayushi` and `Sarang` the search `sa` gives `Sarang` alone and the
empty search gives the whole list. -/
theorem chars_filtered (lower : String → String) (candidates : List String)
    (search : String) :
    chars lower candidates search =
        (candidates.filter fun c => startsWith (lower c) (lower search)).take 10
      ∧ (chars lower candidates search).length ≤ 10
      ∧ (chars lower candidates search).length =
          min 10 (candidates.filter fun c => startsWith (lower c) (lower search)).length
      ∧ (chars lower candidates search).Sublist candidates
      ∧ (∀ c ∈ chars lower candidates search,
          c ∈ candidates ∧ ∃ r : String, lower c = lower search ++ r)
      ∧ (∀ c ∈ chars toLowerCase CHARACTERS search, c ∈ CHARACTERS)
      ∧ chars toLowerCase CHARACTERS "sa" = ["Sarang"]
      ∧ chars toLowerCase CHARACTERS "" = CHARACTERS := by
  refine ⟨rfl, ?_, ?_, ?_, ?_, ?_, by decide, by decide⟩
  · simp [chars, List.length_take]
  · simp [chars, List.length_take]
  · exact (List.take_sublist _ _).trans (List.filter_sublist _)
  · intro c hc
    have hf := List.mem_of_mem_take hc
    rw [List.mem_filter] at hf
    exact ⟨hf.1, (startsWith_iff _ _).1 hf.2⟩
  · intro c hc
    exact (List.mem_filter.1 (List.mem_of_mem_take hc)).1

theorem isWordChar_iff (c : Char) :
    isWordChar c = true ↔
      ('a' ≤ c ∧ c ≤ 'z') ∨ ('A' ≤ c ∧ c ≤ 'Z') ∨ ('0' ≤ c ∧ c ≤ '9') ∨ c = '_' := by
  simp only [isWordChar, Char.isAlphanum, Char.isAlpha, Char.isUpper, Char.isLower,
    Char.isDigit, Bool.or_eq_true, Bool.and_eq_true, decide_eq_true_eq, Char.le_def,
    ge_iff_le]
  have h1 : ('a' : Char).val = 97 := rfl
  have h2 : ('z' : Char).val = 122 := rfl
  have h3 : ('A' : Char).val = 65 := rfl
  have h4 : ('Z' : Char).val = 90 := rfl
  have h5 : ('0' : Char).val = 48 := rfl
  have h6 : ('9' : Char).val = 57 := rfl
  rw [h1, h2, h3, h4, h5, h6]
  tauto

theorem isWhiteSpace_iff (c : Char) :
    isWhiteSpace c = true ↔
      c.toNat ∈ [9, 10, 11, 12, 13, 32, 160, 5760, 8192, 8193, 8194, 8195, 8196, 8197,
        8198, 8199, 8200, 8201, 8202, 8232, 8233, 8239, 8287, 12288, 65279] := by
  simp only [isWhiteSpace, Bool.or_eq_true, Bool.and_eq_true, decide_eq_true_eq,
    List.mem_cons, List.mem_singleton, List.not_mem_nil, or_false]
  omega

theorem onChange_of_triggers (st : MatcherState) (view : EditorView) (r : Range)
    (w : String) (h : Triggers view r w) : onChange st view = ⟨some r, 0, w⟩ := by
  obtain ⟨⟨sel, hsel, hcol⟩, hb, hw, hall, haft⟩ := h
  have hm : beforeMatch ("\x7b" ++ w) = some w :=
    (beforeMatch_eq_some _ _).2 ⟨rfl, hw, fun c hc => (isWordChar_iff c).2 (hall c hc)⟩
  have ha : afterMatch view.afterText = true := by
    refine (afterMatch_iff _).2 ?_
    rcases haft with h | ⟨c, rest, h, hc⟩
    · exact Or.inl h
    · exact Or.inr ⟨c, rest, h, (isWhiteSpace_iff c).2 hc⟩
  simp [onChange, hsel, Range.isCollapsed, hcol, hb, hm, ha]

theorem onChange_cases (st : MatcherState) (view : EditorView) :
    (∃ r w, Triggers view r w ∧ onChange st view = ⟨some r, 0, w⟩)
      ∨ ((¬ ∃ r w, Triggers view r w) ∧ onChange st view = { st with target := none }) := by
  by_cases h : ∃ r w, Triggers view r w
  · obtain ⟨r, w, hrw⟩ := h
    exact Or.inl ⟨r, w, hrw, onChange_of_triggers st view r w hrw⟩
  · refine Or.inr ⟨h, ?_⟩
    unfold onChange
    split
    · next sel hsel =>
      split
      · next hcol =>
        split
        · next br bt hb =>
          split
          · next word hword =>
            split
            · next ha =>
              exfalso
              apply h
              obtain ⟨h1, h2, h3⟩ := (beforeMatch_eq_some _ _).1 hword
              refine ⟨br, word, ⟨sel, hsel, by simpa [Range.isCollapsed] using hcol⟩,
                by rw [hb, h1], h2, fun c hc => (isWordChar_iff c).1 (h3 c hc), ?_⟩
              rcases (afterMatch_iff _).1 ha with h | ⟨c, rest, h, hc⟩
              · exact Or.inl h
              · exact Or.inr ⟨c, rest, h, (isWhiteSpace_iff c).1 hc⟩
            · rfl
          · rfl
        · rfl
      · rfl
    · rfl

/-- C8: a change event activates the matcher exactly when the selection is a
collapsed cursor, the text before it is an opening brace followed by one or
more word characters (letters, digits, underscore) and nothing else, and the
text after it is empty or starts with a white-space character; then the target
is the range of the text before the cursor, the search string is the word
without the brace and the index is 0; in every other case the target is
cleared and nothing else changes. The text `{bar` before the cursor and nothing
after it activates with the search string `bar`. -/
theorem onChange_activates_iff (st : MatcherState) (view : EditorView) (p q : Point)
    (r : Range) :
    ((onChange st view).target ≠ none ↔ ∃ r w, Triggers view r w)
      ∧ (∀ r w, Triggers view r w → onChange st view = ⟨some r, 0, w⟩)
      ∧ ((¬ ∃ r w, Triggers view r w) → onChange st view = { st with target := none })
      ∧ onChange st ⟨some ⟨p, p⟩, some (r, "\x7bbar"), ""⟩ = ⟨some r, 0, "bar"⟩
      ∧ onChange st ⟨some ⟨p, p⟩, some (r, "\x7bA_9z"), " next"⟩ = ⟨some r, 0, "A_9z"⟩
      ∧ onChange st ⟨some ⟨p, p⟩, some (r, "\x7bbar"), "\n"⟩ = ⟨some r, 0, "bar"⟩
      ∧ onChange st ⟨some ⟨p, p⟩, some (r, "\x7bbar"), "\tx"⟩ = ⟨some r, 0, "bar"⟩
      ∧ onChange st ⟨some ⟨p, p⟩, some (r, "\x7bbar"), "\u00a0x"⟩ = ⟨some r, 0, "bar"⟩
      ∧ onChange st ⟨some ⟨p, p⟩, some (r, "\x7bbar"), "x"⟩ = { st with target := none }
      ∧ onChange st ⟨some ⟨p, p⟩, some (r, "\x7bbar"), ".x"⟩ = { st with target := none }
      ∧ onChange st ⟨some ⟨p, p⟩, some (r, "\x7bba-r"), ""⟩ = { st with target := none }
      ∧ onChange st ⟨some ⟨p, p⟩, some (r, "\x7bbar "), ""⟩ = { st with target := none }
      ∧ onChange st ⟨some ⟨p, p⟩, some (r, "\x7bbär"), ""⟩ = { st with target := none }
      ∧ onChange st ⟨some ⟨p, p⟩, some (r, "\x7b"), ""⟩ = { st with target := none }
      ∧ onChange st ⟨some ⟨p, p⟩, some (r, "a\x7bbar"), ""⟩ = { st with target := none }
      ∧ onChange st ⟨some ⟨p, p⟩, some (r, "bar"), ""⟩ = { st with target := none }
      ∧ onChange st ⟨some ⟨p, p⟩, none, ""⟩ = { st with target := none }
      ∧ onChange st ⟨none, some (r, "\x7bbar"), ""⟩ = { st with target := none }
      ∧ (p ≠ q →
          onChange st ⟨some ⟨p, q⟩, some (r, "\x7bbar"), ""⟩ = { st with target := none }) := by
  refine ⟨?_, fun r w h => onChange_of_triggers st view r w h, ?_, ?_, ?_, ?_, ?_, ?_, ?_, ?_,
    ?_, ?_, ?_, ?_, ?_, ?_, ?_, ?_, ?_⟩
  · rcases onChange_cases st view with ⟨r, w, h, he⟩ | ⟨h, he⟩
    · rw [he]; simp only [ne_eq, reduceCtorEq, not_false_eq_true, true_iff]; exact ⟨r, w, h⟩
    · rw [he]; simp only [ne_eq, not_true_eq_false, false_iff]; exact h
  · intro h
    rcases onChange_cases st view with ⟨r, w, h', -⟩ | ⟨-, he⟩
    · exact absurd ⟨r, w, h'⟩ h
    · exact he
  · apply onChange_of_triggers
    exact ⟨⟨_, rfl, rfl⟩, rfl, by decide, by decide, Or.inl rfl⟩
  · apply onChange_of_triggers
    exact ⟨⟨_, rfl, rfl⟩, rfl, by decide, by decide, Or.inr ⟨' ', "next".data, rfl, by decide⟩⟩
  · apply onChange_of_triggers
    exact ⟨⟨_, rfl, rfl⟩, rfl, by decide, by decide, Or.inr ⟨'\n', [], rfl, by decide⟩⟩
  · apply onChange_of_triggers
    exact ⟨⟨_, rfl, rfl⟩, rfl, by decide, by decide, Or.inr ⟨'\t', ['x'], rfl, by decide⟩⟩
  · apply onChange_of_triggers
    exact ⟨⟨_, rfl, rfl⟩, rfl, by decide, by decide,
      Or.inr ⟨Char.ofNat 160, ['x'], rfl, by decide⟩⟩
  · simp [onChange, Range.isCollapsed, beforeMatch, afterMatch, isWordChar, isWhiteSpace]
  · simp [onChange, Range.isCollapsed, beforeMatch, afterMatch, isWordChar, isWhiteSpace]
  · simp [onChange, Range.isCollapsed, beforeMatch, isWordChar]
  · simp [onChange, Range.isCollapsed, beforeMatch, isWordChar]
  · simp [onChange, Range.isCollapsed, beforeMatch, isWordChar]
  · simp [onChange, Range.isCollapsed, beforeMatch]
  · simp [onChange, Range.isCollapsed, beforeMatch]
  · simp [onChange, Range.isCollapsed, beforeMatch]
  · simp [onChange, Range.isCollapsed]
  · simp [onChange]
  · intro h
    simp [onChange, Range.isCollapsed, h]

/-- Witness of C8: the text `{sa` before a collapsed cursor at the end of the
first text activates the matcher with the search string `sa`. -/
theorem onChange_activates_iff_witness :
    Triggers ⟨some ⟨⟨[0, 0], 3⟩, ⟨[0, 0], 3⟩⟩, some (⟨⟨[0, 0], 0⟩, ⟨[0, 0], 3⟩⟩, "\x7bsa"), ""⟩
        ⟨⟨[0, 0], 0⟩, ⟨[0, 0], 3⟩⟩ "sa"
      ∧ onChange MatcherState.initial
          ⟨some ⟨⟨[0, 0], 3⟩, ⟨[0, 0], 3⟩⟩, some (⟨⟨[0, 0], 0⟩, ⟨[0, 0], 3⟩⟩, "\x7bsa"), ""⟩ =
        ⟨some ⟨⟨[0, 0], 0⟩, ⟨[0, 0], 3⟩⟩, 0, "sa"⟩ :=
  have h : Triggers
      ⟨some ⟨⟨[0, 0], 3⟩, ⟨[0, 0], 3⟩⟩, some (⟨⟨[0, 0], 0⟩, ⟨[0, 0], 3⟩⟩, "\x7bsa"), ""⟩
      ⟨⟨[0, 0], 0⟩, ⟨[0, 0], 3⟩⟩ "sa" :=
    ⟨⟨_, rfl, rfl⟩, rfl, by decide, by decide, Or.inl rfl⟩
  ⟨h, (onChange_activates_iff MatcherState.initial _ ⟨[], 0⟩ ⟨[], 0⟩
    ⟨⟨[], 0⟩, ⟨[], 0⟩⟩).2.1 _ _ h⟩

/-- C9 fails on an empty filtered list: after the text `{zz` the matcher is
active with the search string `zz`, no candidate matches, and Enter inserts a
mention whose `character` is `{{undefined}}`, built from no candidate name. -/
theorem enter_on_empty_list_inserts_undefined :
    onChange MatcherState.initial
        ⟨some ⟨⟨[0, 0], 3⟩, ⟨[0, 0], 3⟩⟩, some (⟨⟨[0, 0], 0⟩, ⟨[0, 0], 3⟩⟩, "\x7bzz"), ""⟩ =
        ⟨some ⟨⟨[0, 0], 0⟩, ⟨[0, 0], 3⟩⟩, 0, "zz"⟩
      ∧ chars toLowerCase CHARACTERS "zz" = []
      ∧ (onKeyDown (chars toLowerCase CHARACTERS "zz")
          ⟨some ⟨⟨[0, 0], 0⟩, ⟨[0, 0], 3⟩⟩, 0, "zz"⟩ "Enter").inserted =
        some (.element (some "mention") (some "\x7b\x7bundefined\x7d\x7d") [Node.plain ""])
      ∧ (onKeyDown (chars toLowerCase CHARACTERS "zz")
          ⟨some ⟨⟨[0, 0], 0⟩, ⟨[0, 0], 3⟩⟩, 0, "zz"⟩ "Tab").inserted =
        some (.element (some "mention") (some "\x7b\x7bundefined\x7d\x7d") [Node.plain ""])
      ∧ "undefined" ∉ CHARACTERS := by
  refine ⟨by decide, by decide, rfl, rfl, by decide⟩

/-- Tab and Enter with an index inside the filtered list: the inserted mention
carries the candidate at the index between `{{` and `}}`, with one empty text
child, the target range is selected and the matcher becomes inactive. -/
theorem onKeyDown_enter_in_range (chars : List String) (st : MatcherState) (r : Range)
    (i : Nat) (name : String) (ht : st.target = some r) (hi : st.index = i)
    (hn : chars[i]? = some name) (key : String) (hk : key = "Tab" ∨ key = "Enter") :
    onKeyDown chars st key =
      ⟨{ st with target := none }, some r,
        some (.element (some "mention") (some ("\x7b\x7b" ++ name ++ "\x7d\x7d")) [Node.plain ""]),
        true⟩ ∧ name ∈ chars := by
  refine ⟨?_, List.getElem?_mem hn⟩
  have hg : arrayGet chars st.index = some name := by
    simp [arrayGet, hi, hn]
  rcases hk with rfl | rfl <;>
    simp [onKeyDown, ht, hg, insertMention, templateString]

/-- C10: in an active matcher whose index `i` is a position of the filtered
list of length `n`, ArrowDown sets the index to `(i + 1) mod n` and ArrowUp to
`(i + n - 1) mod n`; the new index is again a position of the list, and target
and search string are unchanged. -/
theorem arrow_keys_cycle (chars : List String) (st : MatcherState) (r : Range)
    (ht : st.target = some r) (h0 : 0 ≤ st.index) (hn : st.index < chars.length) :
    (onKeyDown chars st "ArrowDown").state =
        { st with index := (st.index + 1) % chars.length }
      ∧ (onKeyDown chars st "ArrowUp").state =
        { st with index := (st.index + chars.length - 1) % chars.length }
      ∧ 0 ≤ (onKeyDown chars st "ArrowDown").state.index
      ∧ (onKeyDown chars st "ArrowDown").state.index < chars.length
      ∧ 0 ≤ (onKeyDown chars st "ArrowUp").state.index
      ∧ (onKeyDown chars st "ArrowUp").state.index < chars.length
      ∧ (onKeyDown chars st "ArrowDown").inserted = none
      ∧ (onKeyDown chars st "ArrowUp").inserted = none := by
  have hpos : (0 : Int) < chars.length := lt_of_le_of_lt h0 hn
  have hdown : (if st.index ≥ (chars.length : Int) - 1 then 0 else st.index + 1) =
      (st.index + 1) % chars.length := by
    split
    · next h =>
      have : st.index + 1 = chars.length := by omega
      rw [this, Int.emod_self]
    · next h =>
      rw [Int.emod_eq_of_lt (by omega) (by omega)]
  have hup : (if st.index ≤ 0 then (chars.length : Int) - 1 else st.index - 1) =
      (st.index + chars.length - 1) % chars.length := by
    split
    · next h =>
      have : st.index = 0 := by omega
      rw [this, zero_add, Int.emod_eq_of_lt (by omega) (by omega)]
    · next h =>
      have : st.index + chars.length - 1 = (st.index - 1) + chars.length := by ring
      rw [this, Int.add_emod_self, Int.emod_eq_of_lt (by omega) (by omega)]
  have hd : (onKeyDown chars st "ArrowDown").state =
      { st with index := (st.index + 1) % chars.length } := by
    simp only [onKeyDown, ht]
    rw [← hdown]
  have hu : (onKeyDown chars st "ArrowUp").state =
      { st with index := (st.index + chars.length - 1) % chars.length } := by
    simp only [onKeyDown, ht]
    rw [← hup]
  refine ⟨hd, hu, ?_, ?_, ?_, ?_, ?_, ?_⟩
  · rw [hd]; exact Int.emod_nonneg _ (by omega)
  · rw [hd]; exact Int.emod_lt_of_pos _ hpos
  · rw [hu]; exact Int.emod_nonneg _ (by omega)
  · rw [hu]; exact Int.emod_lt_of_pos _ hpos
  · simp [onKeyDown, ht]
  · simp [onKeyDown, ht]

/-- Witness of C10: with the two candidates of the empty search and index 1,
ArrowDown gives index 0 and ArrowUp gives index 0. -/
theorem arrow_keys_cycle_witness :
    (onKeyDown (chars toLowerCase CHARACTERS "")
        ⟨some ⟨⟨[0, 0], 0⟩, ⟨[0, 0], 1⟩⟩, 1, ""⟩ "ArrowDown").state =
      ⟨some ⟨⟨[0, 0], 0⟩, ⟨[0, 0], 1⟩⟩, 0, ""⟩ :=
  (arrow_keys_cycle (chars toLowerCase CHARACTERS "")
    ⟨some ⟨⟨[0, 0], 0⟩, ⟨[0, 0], 1⟩⟩, 1, ""⟩ ⟨⟨[0, 0], 0⟩, ⟨[0, 0], 1⟩⟩ rfl (by decide)
    (by decide)).1

end TextEditor
